import Mathlib

/-!
Shallow embedding of `src/backend/backend_app.py` (Masterblog API).

Posts are records `{id, title, content}` stored as one JSON list.  Every
endpoint reloads the collection, acts on it and, for mutations, writes the
whole collection back.  We model each Flask view as a pure function from the
loaded collection (plus the request data) to a response together with the
list of `write_posts` calls it performed.
-/

/-- A blog post record, the only entity of the data model. -/
structure Post where
  id : Int
  title : String
  content : String
deriving DecidableEq, Repr

/-- JSON response bodies that the endpoints can produce. -/
inductive Body where
  | posts : List Post → Body
  | post : Post → Body
  | msg : String → Body
  | err : String → Body
deriving DecidableEq, Repr

/-- An HTTP response: status code plus JSON body. -/
structure Resp where
  status : Nat
  body : Body
deriving DecidableEq, Repr

/-- Outcome of a mutating endpoint: the response and the sequence of
collections passed to `write_posts` (empty when nothing was persisted). -/
structure MutOut where
  resp : Resp
  writes : List (List Post)
deriving DecidableEq, Repr

/-- Python truthiness of an optional string: `None` and `""` are falsy. -/
def truthy : Option String → Bool
  | none => false
  | some s => s ≠ ""

/-- Python string comparison on the underlying character lists:
lexicographic by code point, a proper prefix is smaller. -/
def strLtB : List Char → List Char → Bool
  | [], [] => false
  | [], _ :: _ => true
  | _ :: _, [] => false
  | a :: as, b :: bs => if a = b then strLtB as bs else decide (a < b)

/-- A sort key produced by `x.get(sort_field, '')` on a post dict:
the integer `id`, one of the two string fields, or `''` for any other
field name. -/
inductive SKey where
  | ival : Int → SKey
  | sval : String → SKey
deriving DecidableEq, Repr

/-- `x.get(sort_field, '')` on a post dict. -/
def getKey (field : String) (p : Post) : SKey :=
  if field = "id" then .ival p.id
  else if field = "title" then .sval p.title
  else if field = "content" then .sval p.content
  else .sval ""

/-- Python `<` on sort keys.  Heterogeneous comparisons never occur in the
program (all posts expose the same fields, so a given sort field yields keys
of one shape); they are mapped to `false`. -/
def keyLt : SKey → SKey → Bool
  | .ival a, .ival b => decide (a < b)
  | .sval a, .sval b => strLtB a.data b.data
  | _, _ => false

/-- The comparator `list.sort(key=..., reverse=...)` effectively sorts by:
insert an element before the first one it must precede.  Without `reverse`
an element precedes `y` iff its key is not greater than `y`'s; with
`reverse` iff its key is not smaller.  Equal keys always keep the original
order, which is CPython's documented stability (also under `reverse=True`). -/
def pySortLe (field : String) (rev : Bool) (a b : Post) : Bool :=
  if rev then !(keyLt (getKey field a) (getKey field b))
  else !(keyLt (getKey field b) (getKey field a))

/-- Insert `x` in front of the first element `y` with `le x y`. -/
def insertSorted (le : Post → Post → Bool) (x : Post) : List Post → List Post
  | [] => [x]
  | y :: ys => if le x y then x :: y :: ys else y :: insertSorted le x ys

/-- Stable insertion sort (folding from the right, so earlier elements are
inserted last and land in front of equal-key elements). -/
def stableSort (le : Post → Post → Bool) : List Post → List Post
  | [] => []
  | x :: xs => insertSorted le x (stableSort le xs)

/-- `GET /api/posts` (`get_posts`): optional `sort` and `direction` query
parameters; `direction` defaults to `'asc'`; `if sort_field:` skips sorting
for an absent or empty parameter; `reverse = (direction == 'desc')`. -/
def getPosts (posts : List Post) (sortArg dirArg : Option String) : Resp :=
  let sortDirection := dirArg.getD "asc"
  if truthy sortArg then
    let field := sortArg.getD ""
    let rev := sortDirection == "desc"
    ⟨200, .posts (stableSort (pySortLe field rev) posts)⟩
  else
    ⟨200, .posts posts⟩

/-- The relevant fields of a POST/PUT JSON body (`data.get('title')`,
`data.get('content')`). -/
structure ReqData where
  title : Option String
  content : Option String
deriving DecidableEq, Repr

/-- `max(post['id'] for post in posts)` for a nonempty list (`0` is a dummy
value for `[]`, where the program never calls `max`). -/
def maxId : List Post → Int
  | [] => 0
  | p :: ps => ps.foldl (fun m q => max m q.id) p.id

/-- `POST /api/posts` (`add_post`): reject a missing body or falsy
title/content with 400, else assign `max id + 1` (or `1` for an empty
collection), append, persist, return 201. -/
def addPost (data : Option ReqData) (posts : List Post) : MutOut :=
  match data with
  | none => ⟨⟨400, .err "Title and content are required."⟩, []⟩
  | some d =>
    if truthy d.title && truthy d.content then
      let newId : Int := if posts.isEmpty then 1 else maxId posts + 1
      let newPost : Post := ⟨newId, d.title.getD "", d.content.getD ""⟩
      ⟨⟨201, .post newPost⟩, [posts ++ [newPost]]⟩
    else ⟨⟨400, .err "Title and content are required."⟩, []⟩

/-- `PUT /api/posts/<id>` (`update_post`): 404 when no post has the id;
then read the body (`data.get` on a `None` body raises, which Flask turns
into a 500 with no write); falsy title/content give 400; otherwise the
found post is mutated in place (id kept) and the collection persisted. -/
def updatePost (id : Int) (data : Option ReqData) (posts : List Post) : MutOut :=
  match posts.findIdx? (fun p => p.id == id) with
  | none => ⟨⟨404, .err "Post not found"⟩, []⟩
  | some i =>
    match data with
    | none => ⟨⟨500, .err "Internal Server Error"⟩, []⟩
    | some d =>
      if truthy d.title && truthy d.content then
        let old := posts.getD i ⟨0, "", ""⟩
        let upd : Post := ⟨old.id, d.title.getD "", d.content.getD ""⟩
        ⟨⟨200, .post upd⟩, [posts.set i upd]⟩
      else ⟨⟨400, .err "Both 'title' and 'content' are required."⟩, []⟩

/-- `DELETE /api/posts/<id>` (`delete_post`): 404 when no post has the id,
else `posts.remove(post)` (drop the first element equal to the found post,
which is the first element carrying the id) and persist. -/
def deletePost (id : Int) (posts : List Post) : MutOut :=
  match posts.find? (fun p => p.id == id) with
  | none => ⟨⟨404, .err "Post not found"⟩, []⟩
  | some post =>
    ⟨⟨200, .msg ("Post with id " ++ toString id ++ " has been deleted successfully.")⟩,
     [posts.erase post]⟩

/-- `str.lower()` restricted to ASCII case mapping (all inputs the claims
exercise are ASCII). -/
def lowerStr (s : String) : String := ⟨s.data.map Char.toLower⟩

/-- Python `needle in hay` on strings: contiguous substring test. -/
def pyIn (needle hay : String) : Bool := decide (needle.data <:+: hay.data)

/-- `s.split('/')[0]`: the part of `s` before its first `'/'`. -/
def beforeSlash (s : String) : String := ⟨s.data.takeWhile (fun c => c ≠ '/')⟩

/-- `GET /api/posts/search` (`search_posts`): lower-case both query
parameters (absent ones default to `''`), truncate each at its first `'/'`,
then keep the posts passing both the title filter and the content filter,
an empty query string disabling its filter. -/
def searchPosts (posts : List Post) (titleArg contentArg : Option String) : Resp :=
  let tq0 := lowerStr (titleArg.getD "")
  let cq0 := lowerStr (contentArg.getD "")
  let tq := if tq0.data.contains '/' then beforeSlash tq0 else tq0
  let cq := if cq0.data.contains '/' then beforeSlash cq0 else cq0
  ⟨200, .posts (posts.filter (fun p =>
    (if tq = "" then true else pyIn tq (lowerStr p.title)) &&
    (if cq = "" then true else pyIn cq (lowerStr p.content))))⟩

/-! ### Facts about the code-point string comparison -/

theorem strLtB_irrefl : ∀ l : List Char, strLtB l l = false
  | [] => rfl
  | a :: as => by simp [strLtB, strLtB_irrefl as]

theorem strLtB_asymm : ∀ {x y : List Char}, strLtB x y = true → strLtB y x = false
  | [], [], h => by simp [strLtB] at h
  | [], _ :: _, _ => rfl
  | _ :: _, [], h => by simp [strLtB] at h
  | a :: as, b :: bs, h => by
    by_cases hab : a = b
    · subst hab
      simp only [strLtB, if_pos rfl] at h ⊢
      exact strLtB_asymm h
    · simp only [strLtB, if_neg hab, decide_eq_true_eq] at h
      have hba : ¬ b = a := fun e => hab e.symm
      simp only [strLtB, if_neg hba, decide_eq_false_iff_not]
      exact Char.lt_asymm h

theorem strLtB_total : ∀ {x y : List Char}, x ≠ y → strLtB x y = true ∨ strLtB y x = true
  | [], [], h => absurd rfl h
  | [], _ :: _, _ => .inl rfl
  | _ :: _, [], _ => .inr rfl
  | a :: as, b :: bs, h => by
    by_cases hab : a = b
    · subst hab
      have hne : as ≠ bs := fun e => h (by rw [e])
      rcases strLtB_total hne with h' | h'
      · exact .inl (by simpa [strLtB] using h')
      · exact .inr (by simpa [strLtB] using h')
    · have hba : ¬ b = a := fun e => hab e.symm
      rcases Ne.lt_or_lt hab with hlt | hlt
      · exact .inl (by simp [strLtB, hab, hlt])
      · exact .inr (by simp [strLtB, hba, hlt])

theorem strLtB_trans :
    ∀ {x y z : List Char}, strLtB x y = true → strLtB y z = true → strLtB x z = true
  | [], _, _ :: _, _, _ => rfl
  | [], y, [], _, h2 => by cases y <;> simp [strLtB] at h2
  | _ :: _, [], _, h1, _ => by simp [strLtB] at h1
  | _ :: _, _ :: _, [], _, h2 => by simp [strLtB] at h2
  | a :: as, b :: bs, c :: cs, h1, h2 => by
    by_cases hab : a = b <;> by_cases hbc : b = c
    · subst hab; subst hbc
      simp only [strLtB, if_pos rfl] at h1 h2 ⊢
      exact strLtB_trans h1 h2
    · subst hab
      simp only [strLtB, if_pos rfl] at h1
      simp only [strLtB, if_neg hbc, decide_eq_true_eq] at h2
      simp only [strLtB, if_neg hbc, decide_eq_true_eq]
      exact h2
    · subst hbc
      simp only [strLtB, if_neg hab, decide_eq_true_eq] at h1
      simp only [strLtB, if_neg hab, decide_eq_true_eq]
      exact h1
    · simp only [strLtB, if_neg hab, decide_eq_true_eq] at h1
      simp only [strLtB, if_neg hbc, decide_eq_true_eq] at h2
      have hac : a < c := lt_trans h1 h2
      have : a ≠ c := ne_of_lt hac
      simp only [strLtB, if_neg this, decide_eq_true_eq]
      exact hac

/-! ### Facts about ASCII lower-casing and the slash character -/

theorem toLower_eq_slash {c : Char} (h : c.toLower = '/') : c = '/' := by
  by_cases hr : 65 ≤ c.toNat ∧ c.toNat ≤ 90
  · exfalso
    have h' : (Char.ofNat c.toNat).toLower = '/' := by rw [Char.ofNat_toNat]; exact h
    obtain ⟨h1, h2⟩ := hr
    generalize hg : c.toNat = m at h' h1 h2
    interval_cases m <;> exact absurd h' (by decide)
  · unfold Char.toLower at h
    rw [if_neg (by omega)] at h
    exact h

theorem toLower_slash_iff (c : Char) : (c.toLower = '/') ↔ (c = '/') :=
  ⟨toLower_eq_slash, fun h => by subst h; rfl⟩

/-! ### Generic facts about the stable insertion sort -/

theorem bnot_true_iff {b : Bool} : (!b) = true ↔ b = false := by cases b <;> simp

theorem bnot_false_iff {b : Bool} : (!b) = false ↔ b = true := by cases b <;> simp

theorem insertSorted_perm (le : Post → Post → Bool) (x : Post) :
    ∀ l : List Post, List.Perm (insertSorted le x l) (x :: l)
  | [] => List.Perm.refl _
  | y :: ys => by
    unfold insertSorted
    by_cases h : le x y = true
    · rw [if_pos h]
    · rw [if_neg h]
      exact ((insertSorted_perm le x ys).cons y).trans (List.Perm.swap x y ys)

theorem stableSort_perm (le : Post → Post → Bool) : ∀ l : List Post, List.Perm (stableSort le l) l
  | [] => List.Perm.refl _
  | x :: xs => (insertSorted_perm le x _).trans ((stableSort_perm le xs).cons x)

theorem stableSort_of_all_le (le : Post → Post → Bool) (h : ∀ a b, le a b = true) :
    ∀ l : List Post, stableSort le l = l
  | [] => rfl
  | x :: xs => by
    unfold stableSort
    rw [stableSort_of_all_le le h xs]
    cases xs with
    | nil => rfl
    | cons y ys => unfold insertSorted; rw [if_pos (h x y)]

theorem insertSorted_pairwise (le : Post → Post → Bool)
    (htot : ∀ a b, le a b = true ∨ le b a = true)
    (htrans : ∀ a b c, le a b = true → le b c = true → le a c = true) (x : Post) :
    ∀ l : List Post, l.Pairwise (fun a b => le a b = true) →
      (insertSorted le x l).Pairwise (fun a b => le a b = true)
  | [], _ => by simp [insertSorted]
  | y :: ys, hl => by
    rcases List.pairwise_cons.mp hl with ⟨hy, hys⟩
    unfold insertSorted
    by_cases h : le x y = true
    · rw [if_pos h]
      refine List.pairwise_cons.mpr ⟨?_, hl⟩
      intro z hz
      rcases List.mem_cons.mp hz with rfl | hz'
      · exact h
      · exact htrans x y z h (hy z hz')
    · rw [if_neg h]
      refine List.pairwise_cons.mpr ⟨?_, insertSorted_pairwise le htot htrans x ys hys⟩
      intro z hz
      rcases List.mem_cons.mp ((insertSorted_perm le x ys).mem_iff.mp hz) with rfl | hz'
      · rcases htot y z with h' | h'
        · exact h'
        · exact absurd h' h
      · exact hy z hz'

theorem stableSort_pairwise (le : Post → Post → Bool)
    (htot : ∀ a b, le a b = true ∨ le b a = true)
    (htrans : ∀ a b c, le a b = true → le b c = true → le a c = true) :
    ∀ l : List Post, (stableSort le l).Pairwise (fun a b => le a b = true)
  | [] => List.Pairwise.nil
  | x :: xs =>
    insertSorted_pairwise le htot htrans x _ (stableSort_pairwise le htot htrans xs)

theorem insertSorted_filter (le : Post → Post → Bool) (k : Post → String) (x : Post)
    (hx : ∀ y, le x y = false → k x ≠ k y) (v : String) :
    ∀ l : List Post,
      (insertSorted le x l).filter (fun p => k p == v)
        = (x :: l).filter (fun p => k p == v)
  | [] => rfl
  | y :: ys => by
    unfold insertSorted
    by_cases h : le x y = true
    · rw [if_pos h]
    · rw [if_neg h]
      have hxy : k x ≠ k y := hx y (by revert h; cases le x y <;> simp)
      have IH := insertSorted_filter le k x hx v ys
      by_cases h1 : (k x == v) = true <;> by_cases h2 : (k y == v) = true
      · exact absurd ((beq_iff_eq.mp h1).trans (beq_iff_eq.mp h2).symm) hxy
      all_goals simp [List.filter_cons, h1, h2, IH]

theorem stableSort_filter (le : Post → Post → Bool) (k : Post → String)
    (hk : ∀ a b, le a b = false → k a ≠ k b) (v : String) :
    ∀ l : List Post,
      (stableSort le l).filter (fun p => k p == v) = l.filter (fun p => k p == v)
  | [] => rfl
  | x :: xs => by
    unfold stableSort
    rw [insertSorted_filter le k x (fun y => hk x y) v]
    simp [List.filter_cons, stableSort_filter le k hk v xs]

theorem insertSorted_of_none (c : Post → Post → Bool) (x : Post) :
    ∀ l : List Post, (∀ z ∈ l, c x z = false) → insertSorted c x l = l ++ [x]
  | [], _ => rfl
  | y :: ys, h => by
    unfold insertSorted
    rw [if_neg (by simp [h y (List.mem_cons_self y ys)])]
    rw [insertSorted_of_none c x ys (fun z hz => h z (List.mem_cons_of_mem y hz))]
    rfl

theorem insertSorted_append (c : Post → Post → Bool) (x y : Post) (hxy : c x y = true) :
    ∀ l : List Post, insertSorted c x (l ++ [y]) = insertSorted c x l ++ [y]
  | [] => by simp [insertSorted, hxy]
  | z :: zs => by
    have IH := insertSorted_append c x y hxy zs
    by_cases h : c x z = true
    · simp [insertSorted, h]
    · simp [insertSorted, h, IH]

theorem reverse_insertSorted (lt : Post → Post → Bool)
    (hasymm : ∀ a b, lt a b = true → lt b a = false)
    (htrans : ∀ a b c, lt a b = true → lt b c = true → lt a c = true)
    (x : Post) :
    ∀ s : List Post,
      List.Pairwise (fun a b => lt b a = false) s →
      (∀ z ∈ s, lt x z = true ∨ lt z x = true) →
      (insertSorted (fun a b => !(lt b a)) x s).reverse
        = insertSorted (fun a b => !(lt a b)) x s.reverse
  | [], _, _ => rfl
  | y :: t, hs, hc => by
    rcases List.pairwise_cons.mp hs with ⟨hy, ht⟩
    simp only [insertSorted]
    by_cases hyx : lt y x = true
    · rw [if_neg (by simp [hyx])]
      rw [List.reverse_cons, List.reverse_cons]
      rw [reverse_insertSorted lt hasymm htrans x t ht
            (fun z hz => hc z (List.mem_cons_of_mem y hz))]
      rw [insertSorted_append (fun a b => !(lt a b)) x y (by simp [hasymm y x hyx])]
    · have hyxf : lt y x = false := by revert hyx; cases lt y x <;> simp
      have hxy : lt x y = true := by
        rcases hc y (List.mem_cons_self y t) with h | h
        · exact h
        · exact absurd h hyx
      rw [if_pos (by simp [hyxf])]
      have hall : ∀ z ∈ (y :: t).reverse, (fun a b => !(lt a b)) x z = false := by
        intro z hz
        have hz' : z ∈ y :: t := List.mem_reverse.mp hz
        have hlt : lt x z = true := by
          rcases List.mem_cons.mp hz' with rfl | hzt
          · exact hxy
          · rcases hc z (List.mem_cons_of_mem y hzt) with h | h
            · exact h
            · exact absurd (htrans z x y h hxy) (by simp [hy z hzt])
        simp [hlt]
      rw [insertSorted_of_none (fun a b => !(lt a b)) x ((y :: t).reverse) hall]
      exact List.reverse_cons ..

theorem stableSort_reverse (lt : Post → Post → Bool)
    (hasymm : ∀ a b, lt a b = true → lt b a = false)
    (htrans : ∀ a b c, lt a b = true → lt b c = true → lt a c = true)
    (hconn : ∀ a b c, lt a c = true → lt a b = true ∨ lt b c = true) :
    ∀ l : List Post,
      List.Pairwise (fun a b => lt a b = true ∨ lt b a = true) l →
      stableSort (fun a b => !(lt a b)) l
        = (stableSort (fun a b => !(lt b a)) l).reverse
  | [], _ => rfl
  | x :: xs, hl => by
    rcases List.pairwise_cons.mp hl with ⟨hx, hxs⟩
    have htot' : ∀ a b : Post, (!(lt b a)) = true ∨ (!(lt a b)) = true := by
      intro a b
      by_cases h : lt b a = true
      · exact .inr (by simp [hasymm b a h])
      · exact .inl (by revert h; cases lt b a <;> simp)
    have htrans' : ∀ a b c : Post,
        (!(lt b a)) = true → (!(lt c b)) = true → (!(lt c a)) = true := by
      intro a b c h1 h2
      rw [bnot_true_iff] at h1 h2 ⊢
      by_contra hca
      have hca' : lt c a = true := by revert hca; cases lt c a <;> simp
      rcases hconn c b a hca' with h | h
      · rw [h2] at h; cases h
      · rw [h1] at h; cases h
    have hsorted : List.Pairwise (fun a b => lt b a = false)
        (stableSort (fun a b => !(lt b a)) xs) :=
      (stableSort_pairwise (fun a b => !(lt b a)) htot' htrans' xs).imp
        (fun h => bnot_true_iff.mp h)
    have hcomp : ∀ z ∈ stableSort (fun a b => !(lt b a)) xs,
        lt x z = true ∨ lt z x = true := by
      intro z hz
      exact hx z ((stableSort_perm _ xs).mem_iff.mp hz)
    unfold stableSort
    rw [stableSort_reverse lt hasymm htrans hconn xs hxs]
    rw [reverse_insertSorted lt hasymm htrans x
          (stableSort (fun a b => !(lt b a)) xs) hsorted hcomp]

/-! ### Instantiating the sort lemmas for the valid sort fields -/

theorem pySortLe_title_asc :
    pySortLe "title" false = fun a b => !(strLtB b.title.data a.title.data) := by
  funext a b; rfl

theorem pySortLe_title_desc :
    pySortLe "title" true = fun a b => !(strLtB a.title.data b.title.data) := by
  funext a b; rfl

theorem pySortLe_content_asc :
    pySortLe "content" false = fun a b => !(strLtB b.content.data a.content.data) := by
  funext a b; rfl

theorem pySortLe_content_desc :
    pySortLe "content" true = fun a b => !(strLtB a.content.data b.content.data) := by
  funext a b; rfl

theorem getPosts_sorting (posts : List Post) (field : String) (hf : field ≠ "") (dir : String) :
    getPosts posts (some field) (some dir)
      = ⟨200, .posts (stableSort (pySortLe field (dir == "desc")) posts)⟩ := by
  unfold getPosts
  rw [if_pos (by simpa [truthy] using hf)]
  rfl

theorem key_hconn (k : Post → String) (a b c : Post)
    (hac : strLtB (k a).data (k c).data = true) :
    strLtB (k a).data (k b).data = true ∨ strLtB (k b).data (k c).data = true := by
  by_cases hab : (k a).data = (k b).data
  · exact .inr (hab ▸ hac)
  · rcases strLtB_total hab with h | h
    · exact .inl h
    · exact .inr (strLtB_trans h hac)

theorem key_le_total (k : Post → String) (a b : Post) :
    (!(strLtB (k b).data (k a).data)) = true ∨ (!(strLtB (k a).data (k b).data)) = true := by
  by_cases h : strLtB (k b).data (k a).data = true
  · exact .inr (by simp [strLtB_asymm h])
  · exact .inl (by revert h; cases strLtB (k b).data (k a).data <;> simp)

theorem key_le_trans (k : Post → String) (a b c : Post)
    (h1 : (!(strLtB (k b).data (k a).data)) = true)
    (h2 : (!(strLtB (k c).data (k b).data)) = true) :
    (!(strLtB (k c).data (k a).data)) = true := by
  rw [bnot_true_iff] at h1 h2 ⊢
  by_contra hca
  have hca' : strLtB (k c).data (k a).data = true := by
    revert hca; cases strLtB (k c).data (k a).data <;> simp
  rcases key_hconn k c b a hca' with h | h
  · rw [h2] at h; cases h
  · rw [h1] at h; cases h

/-! ### Facts about `max(post['id'] for post in posts)` -/

theorem foldl_max_le_self : ∀ (ps : List Post) (acc : Int),
    acc ≤ ps.foldl (fun m q => max m q.id) acc
  | [], _ => le_refl _
  | p :: ps, acc =>
    le_trans (le_max_left acc p.id) (foldl_max_le_self ps (max acc p.id))

theorem foldl_max_le_mem : ∀ (ps : List Post) (acc : Int) (p : Post), p ∈ ps →
    p.id ≤ ps.foldl (fun m q => max m q.id) acc
  | q :: ps, acc, p, hp => by
    rcases List.mem_cons.mp hp with rfl | hp'
    · exact le_trans (le_max_right acc p.id) (foldl_max_le_self ps (max acc p.id))
    · exact foldl_max_le_mem ps (max acc q.id) p hp'

theorem foldl_max_attained : ∀ (ps : List Post) (acc : Int),
    ps.foldl (fun m q => max m q.id) acc = acc ∨
      ∃ p ∈ ps, ps.foldl (fun m q => max m q.id) acc = p.id
  | [], _ => .inl rfl
  | q :: ps, acc => by
    rcases foldl_max_attained ps (max acc q.id) with h | ⟨p, hp, h⟩
    · rcases max_choice acc q.id with hm | hm
      · exact .inl (by rw [List.foldl_cons, h, hm])
      · exact .inr ⟨q, List.mem_cons_self q ps, by rw [List.foldl_cons, h, hm]⟩
    · exact .inr ⟨p, List.mem_cons_of_mem q hp, by rw [List.foldl_cons, h]⟩

theorem maxId_ge (posts : List Post) (p : Post) (hp : p ∈ posts) : p.id ≤ maxId posts := by
  cases posts with
  | nil => cases hp
  | cons q ps =>
    rcases List.mem_cons.mp hp with rfl | hp'
    · exact foldl_max_le_self ps p.id
    · exact foldl_max_le_mem ps q.id p hp'

theorem maxId_attained (posts : List Post) (h : posts ≠ []) :
    ∃ p ∈ posts, p.id = maxId posts := by
  cases posts with
  | nil => exact absurd rfl h
  | cons q ps =>
    rcases foldl_max_attained ps q.id with h' | ⟨p, hp, h'⟩
    · exact ⟨q, List.mem_cons_self q ps, h'.symm⟩
    · exact ⟨p, List.mem_cons_of_mem q hp, h'.symm⟩

/-- The sequence of ids of a collection. -/
def ids (posts : List Post) : List Int := posts.map (fun p => p.id)

theorem ids_set : ∀ (l : List Post) (i : Nat) (p' : Post),
    p'.id = (l.getD i ⟨0, "", ""⟩).id → ids (l.set i p') = ids l
  | [], _, _, _ => rfl
  | x :: xs, 0, p', h => by
    simp only [List.set, ids, List.map_cons, List.cons.injEq]
    exact ⟨h, trivial⟩
  | x :: xs, i + 1, p', h => by
    simp only [List.set, ids, List.map_cons, List.cons.injEq]
    exact ⟨trivial, ids_set xs i p' h⟩

/-! ### Facts about lower-casing, slash truncation and substring tests -/

theorem beq_slash_toLower (a : Char) : ('/' == a.toLower) = ('/' == a) := by
  by_cases h : a = '/'
  · subst h; rfl
  · have h2 : a.toLower ≠ '/' := fun hh => h (toLower_eq_slash hh)
    rw [beq_eq_false_iff_ne.mpr (fun hh => h2 hh.symm),
        beq_eq_false_iff_ne.mpr (fun hh => h hh.symm)]

theorem map_toLower_contains (l : List Char) :
    (l.map Char.toLower).contains '/' = l.contains '/' := by
  induction l with
  | nil => rfl
  | cons a l ih =>
    simp only [List.map_cons, List.contains_cons, ih]
    rw [beq_slash_toLower]

theorem decide_ne_slash_toLower (c : Char) :
    decide (c.toLower ≠ '/') = decide (c ≠ '/') :=
  decide_eq_decide.mpr (not_congr (toLower_slash_iff c))

theorem beforeSlash_lowerStr (s : String) :
    beforeSlash (lowerStr s) = lowerStr (beforeSlash s) := by
  unfold beforeSlash lowerStr
  simp only [List.takeWhile_map]
  have hp : ((fun c => decide (c ≠ '/')) ∘ Char.toLower) = fun c : Char => decide (c ≠ '/') := by
    funext c
    exact decide_ne_slash_toLower c
  rw [hp]

theorem takeWhile_slash_contains : ∀ l : List Char,
    (l.takeWhile (fun c => c ≠ '/')).contains '/' = false
  | [] => rfl
  | a :: l => by
    by_cases h : a = '/'
    · subst h
      rw [List.takeWhile_cons, if_neg (by simp)]
      rfl
    · rw [List.takeWhile_cons, if_pos (by simp [h])]
      rw [List.contains_cons, takeWhile_slash_contains l, Bool.or_false]
      exact beq_eq_false_iff_ne.mpr (fun e => h e.symm)

theorem takeWhile_slash_eq_self : ∀ l : List Char,
    l.contains '/' = false → l.takeWhile (fun c => c ≠ '/') = l
  | [], _ => rfl
  | a :: l, h => by
    rw [List.contains_cons, Bool.or_eq_false_iff] at h
    have ha : a ≠ '/' := fun e => by subst e; simp at h
    rw [List.takeWhile_cons, if_pos (by simp [ha])]
    rw [takeWhile_slash_eq_self l h.2]

theorem beforeSlash_contains (s : String) : (beforeSlash s).data.contains '/' = false :=
  takeWhile_slash_contains s.data

theorem beforeSlash_eq_self (s : String) (h : s.data.contains '/' = false) :
    beforeSlash s = s := by
  unfold beforeSlash
  rw [takeWhile_slash_eq_self s.data h]

theorem lowerStr_contains (s : String) :
    (lowerStr s).data.contains '/' = s.data.contains '/' :=
  map_toLower_contains s.data

theorem pyIn_empty (hay : String) : pyIn "" hay = true := by
  simp [pyIn]

theorem lowerStr_eq_empty_iff (s : String) : lowerStr s = "" ↔ s = "" := by
  cases s with
  | mk data =>
    unfold lowerStr
    constructor
    · intro h
      have h2 : List.map Char.toLower data = [] := congrArg String.data h
      rw [List.map_eq_nil_iff] at h2
      rw [h2]
    · intro h
      have hd : data = [] := congrArg String.data h
      subst hd
      rfl

/-! ### Comparator key-distinctness helpers -/

theorem pySort_title_asc_ne (a b : Post) (h : pySortLe "title" false a b = false) :
    a.title ≠ b.title := by
  rw [pySortLe_title_asc] at h
  have h2 : strLtB b.title.data a.title.data = true := bnot_false_iff.mp h
  intro e
  rw [e, strLtB_irrefl] at h2
  exact Bool.noConfusion h2

theorem pySort_title_desc_ne (a b : Post) (h : pySortLe "title" true a b = false) :
    a.title ≠ b.title := by
  rw [pySortLe_title_desc] at h
  have h2 : strLtB a.title.data b.title.data = true := bnot_false_iff.mp h
  intro e
  rw [e, strLtB_irrefl] at h2
  exact Bool.noConfusion h2

theorem pySort_content_asc_ne (a b : Post) (h : pySortLe "content" false a b = false) :
    a.content ≠ b.content := by
  rw [pySortLe_content_asc] at h
  have h2 : strLtB b.content.data a.content.data = true := bnot_false_iff.mp h
  intro e
  rw [e, strLtB_irrefl] at h2
  exact Bool.noConfusion h2

theorem pySort_content_desc_ne (a b : Post) (h : pySortLe "content" true a b = false) :
    a.content ≠ b.content := by
  rw [pySortLe_content_desc] at h
  have h2 : strLtB a.content.data b.content.data = true := bnot_false_iff.mp h
  intro e
  rw [e, strLtB_irrefl] at h2
  exact Bool.noConfusion h2

/-! ### Claim C1 -/

/-- C1 counterexample: `get_posts` performs no validation.  With the invalid
sort field `"bogus"` (and with the invalid direction `"sideways"`) the request
still answers 200 with a post list, instead of failing with a 400
`ValidationError` as claimed. -/
theorem C1_counterexample :
    getPosts [⟨1, "a", "b"⟩] (some "bogus") (some "asc")
      = ⟨200, .posts [⟨1, "a", "b"⟩]⟩ ∧
    getPosts [⟨1, "a", "b"⟩] (some "title") (some "sideways")
      = ⟨200, .posts [⟨1, "a", "b"⟩]⟩ := by
  decide

/-- C1 amended: the list endpoint validates neither query parameter.  A sort
field other than `id`/`title`/`content` makes every sort key the missing-field
default `''`, so the posts come back 200 in storage order for every direction,
`desc` included; and any direction other than `desc` behaves exactly like
`asc` for every sort field.  No request fails with 400. -/
theorem C1_amended (posts : List Post) (field : String)
    (hf : field ≠ "id" ∧ field ≠ "title" ∧ field ≠ "content") :
    (∀ dir : String, getPosts posts (some field) (some dir) = ⟨200, .posts posts⟩) ∧
    (∀ (f dir : String), dir ≠ "desc" →
        getPosts posts (some f) (some dir) = getPosts posts (some f) (some "asc")) := by
  obtain ⟨h1, h2, h3⟩ := hf
  constructor
  · intro dir
    by_cases he : field = ""
    · subst he
      unfold getPosts
      rw [if_neg (by simp [truthy])]
    · rw [getPosts_sorting posts field he dir]
      have hkey : ∀ p : Post, getKey field p = .sval "" := by
        intro p
        unfold getKey
        rw [if_neg h1, if_neg h2, if_neg h3]
      have hall : ∀ a b : Post, pySortLe field (dir == "desc") a b = true := by
        intro a b
        unfold pySortLe
        rw [hkey a, hkey b, ite_self]
        decide
      rw [stableSort_of_all_le (pySortLe field (dir == "desc")) hall posts]
  · intro f dir hd
    have hrev : (dir == "desc") = false := beq_eq_false_iff_ne.mpr hd
    unfold getPosts
    simp only [Option.getD_some]
    rw [hrev, show (("asc" : String) == "desc") = false from rfl]

/-- C1 witness: the amended statement at a concrete invalid field,
instantiated at the direction `desc` and at a concrete invalid direction. -/
theorem C1_witness :
    getPosts [⟨1, "a", "b"⟩] (some "bogus") (some "desc") = ⟨200, .posts [⟨1, "a", "b"⟩]⟩ ∧
    getPosts [⟨1, "a", "b"⟩] (some "title") (some "up")
      = getPosts [⟨1, "a", "b"⟩] (some "title") (some "asc") :=
  ⟨(C1_amended [⟨1, "a", "b"⟩] "bogus" (by decide)).1 "desc",
   (C1_amended [⟨1, "a", "b"⟩] "bogus" (by decide)).2 "title" "up" (by decide)⟩

/-! ### Claim C3 -/

/-- C3 counterexample: sorting compares raw code points, not case-insensitive
values.  On the spec example the ascending title sort keeps id 1 ("Banana",
capital B) before id 2 ("apple"), while the claim requires id 2 first. -/
theorem C3_counterexample :
    getPosts [⟨1, "Banana", "x"⟩, ⟨2, "apple", "y"⟩] (some "title") (some "asc")
      ≠ ⟨200, .posts [⟨2, "apple", "y"⟩, ⟨1, "Banana", "x"⟩]⟩ := by
  decide

/-- C3 amended: the list endpoint orders posts by case-sensitive code-point
comparison of the chosen field (every valid field): the returned list is a
permutation of the collection whose consecutive elements never strictly
descend under the code-point order; on the spec example the ascending title
sort returns id 1 ("Banana") before id 2 ("apple"). -/
theorem C3_amended :
    (∀ posts : List Post, ∃ l : List Post,
        getPosts posts (some "title") (some "asc") = ⟨200, .posts l⟩ ∧
        List.Perm l posts ∧
        List.Pairwise (fun a b => strLtB b.title.data a.title.data = false) l) ∧
    (∀ posts : List Post, ∃ l : List Post,
        getPosts posts (some "content") (some "asc") = ⟨200, .posts l⟩ ∧
        List.Perm l posts ∧
        List.Pairwise (fun a b => strLtB b.content.data a.content.data = false) l) ∧
    getPosts [⟨1, "Banana", "x"⟩, ⟨2, "apple", "y"⟩] (some "title") (some "asc")
      = ⟨200, .posts [⟨1, "Banana", "x"⟩, ⟨2, "apple", "y"⟩]⟩ := by
  refine ⟨?_, ?_, by decide⟩
  · intro posts
    have htot : ∀ a b : Post,
        pySortLe "title" false a b = true ∨ pySortLe "title" false b a = true := by
      intro a b
      rw [pySortLe_title_asc]
      exact key_le_total (fun p => p.title) a b
    have htrans : ∀ a b c : Post, pySortLe "title" false a b = true →
        pySortLe "title" false b c = true → pySortLe "title" false a c = true := by
      intro a b c
      rw [pySortLe_title_asc]
      exact key_le_trans (fun p => p.title) a b c
    refine ⟨stableSort (pySortLe "title" false) posts, ?_, stableSort_perm _ posts, ?_⟩
    · rw [getPosts_sorting posts "title" (by decide) "asc"]
      rfl
    · have hp := stableSort_pairwise (pySortLe "title" false) htot htrans posts
      rw [pySortLe_title_asc] at hp
      exact hp.imp (fun h => bnot_true_iff.mp h)
  · intro posts
    have htot : ∀ a b : Post,
        pySortLe "content" false a b = true ∨ pySortLe "content" false b a = true := by
      intro a b
      rw [pySortLe_content_asc]
      exact key_le_total (fun p => p.content) a b
    have htrans : ∀ a b c : Post, pySortLe "content" false a b = true →
        pySortLe "content" false b c = true → pySortLe "content" false a c = true := by
      intro a b c
      rw [pySortLe_content_asc]
      exact key_le_trans (fun p => p.content) a b c
    refine ⟨stableSort (pySortLe "content" false) posts, ?_, stableSort_perm _ posts, ?_⟩
    · rw [getPosts_sorting posts "content" (by decide) "asc"]
      rfl
    · have hp := stableSort_pairwise (pySortLe "content" false) htot htrans posts
      rw [pySortLe_content_asc] at hp
      exact hp.imp (fun h => bnot_true_iff.mp h)

/-! ### Claim C4 -/

/-- C4 counterexample: with two posts carrying the same title, both the
ascending and the descending title sort return the storage order (the sort is
stable also under `reverse=True`), so the descending result is not the
reverse of the ascending one. -/
theorem C4_counterexample :
    getPosts [⟨1, "a", "x"⟩, ⟨2, "a", "y"⟩] (some "title") (some "asc")
      = ⟨200, .posts [⟨1, "a", "x"⟩, ⟨2, "a", "y"⟩]⟩ ∧
    getPosts [⟨1, "a", "x"⟩, ⟨2, "a", "y"⟩] (some "title") (some "desc")
      = ⟨200, .posts [⟨1, "a", "x"⟩, ⟨2, "a", "y"⟩]⟩ ∧
    [(⟨1, "a", "x"⟩ : Post), ⟨2, "a", "y"⟩]
      ≠ List.reverse [(⟨1, "a", "x"⟩ : Post), ⟨2, "a", "y"⟩] := by
  decide

/-- C4 amended: for each valid sort field (title and content), when that
field's values are pairwise distinct the descending list is the exact reverse
of the ascending one; and in general sorting is stable in both directions —
posts with equal keys keep their original relative order (so with ties the
descending order is not the reversed ascending order). -/
theorem C4_amended (posts : List Post) :
    (List.Pairwise (fun a b => a.title ≠ b.title) posts →
      ∃ la ld : List Post,
        getPosts posts (some "title") (some "asc") = ⟨200, .posts la⟩ ∧
        getPosts posts (some "title") (some "desc") = ⟨200, .posts ld⟩ ∧
        ld = la.reverse) ∧
    (List.Pairwise (fun a b => a.content ≠ b.content) posts →
      ∃ la ld : List Post,
        getPosts posts (some "content") (some "asc") = ⟨200, .posts la⟩ ∧
        getPosts posts (some "content") (some "desc") = ⟨200, .posts ld⟩ ∧
        ld = la.reverse) ∧
    (∀ v : String, ∃ la ld : List Post,
        getPosts posts (some "title") (some "asc") = ⟨200, .posts la⟩ ∧
        getPosts posts (some "title") (some "desc") = ⟨200, .posts ld⟩ ∧
        la.filter (fun p => p.title == v) = posts.filter (fun p => p.title == v) ∧
        ld.filter (fun p => p.title == v) = posts.filter (fun p => p.title == v)) ∧
    (∀ v : String, ∃ la ld : List Post,
        getPosts posts (some "content") (some "asc") = ⟨200, .posts la⟩ ∧
        getPosts posts (some "content") (some "desc") = ⟨200, .posts ld⟩ ∧
        la.filter (fun p => p.content == v) = posts.filter (fun p => p.content == v) ∧
        ld.filter (fun p => p.content == v) = posts.filter (fun p => p.content == v)) := by
  refine ⟨?_, ?_, ?_, ?_⟩
  · intro hd
    refine ⟨stableSort (pySortLe "title" false) posts,
      stableSort (pySortLe "title" true) posts, ?_, ?_, ?_⟩
    · rw [getPosts_sorting posts "title" (by decide) "asc"]
      rfl
    · rw [getPosts_sorting posts "title" (by decide) "desc"]
      rfl
    · rw [pySortLe_title_desc, pySortLe_title_asc]
      exact stableSort_reverse (fun a b => strLtB a.title.data b.title.data)
        (fun a b h => strLtB_asymm h) (fun a b c h1 h2 => strLtB_trans h1 h2)
        (fun a b c h => key_hconn (fun p => p.title) a b c h) posts
        (hd.imp (fun h => strLtB_total (fun e => h (String.toList_inj.mp e))))
  · intro hd
    refine ⟨stableSort (pySortLe "content" false) posts,
      stableSort (pySortLe "content" true) posts, ?_, ?_, ?_⟩
    · rw [getPosts_sorting posts "content" (by decide) "asc"]
      rfl
    · rw [getPosts_sorting posts "content" (by decide) "desc"]
      rfl
    · rw [pySortLe_content_desc, pySortLe_content_asc]
      exact stableSort_reverse (fun a b => strLtB a.content.data b.content.data)
        (fun a b h => strLtB_asymm h) (fun a b c h1 h2 => strLtB_trans h1 h2)
        (fun a b c h => key_hconn (fun p => p.content) a b c h) posts
        (hd.imp (fun h => strLtB_total (fun e => h (String.toList_inj.mp e))))
  · intro v
    refine ⟨stableSort (pySortLe "title" false) posts,
      stableSort (pySortLe "title" true) posts, ?_, ?_, ?_, ?_⟩
    · rw [getPosts_sorting posts "title" (by decide) "asc"]
      rfl
    · rw [getPosts_sorting posts "title" (by decide) "desc"]
      rfl
    · exact stableSort_filter (pySortLe "title" false) (fun p => p.title)
        (fun a b h => pySort_title_asc_ne a b h) v posts
    · exact stableSort_filter (pySortLe "title" true) (fun p => p.title)
        (fun a b h => pySort_title_desc_ne a b h) v posts
  · intro v
    refine ⟨stableSort (pySortLe "content" false) posts,
      stableSort (pySortLe "content" true) posts, ?_, ?_, ?_, ?_⟩
    · rw [getPosts_sorting posts "content" (by decide) "asc"]
      rfl
    · rw [getPosts_sorting posts "content" (by decide) "desc"]
      rfl
    · exact stableSort_filter (pySortLe "content" false) (fun p => p.content)
        (fun a b h => pySort_content_asc_ne a b h) v posts
    · exact stableSort_filter (pySortLe "content" true) (fun p => p.content)
        (fun a b h => pySort_content_desc_ne a b h) v posts

/-- C4 witness: the amended statement on a concrete collection with distinct
titles and distinct contents, the stability conjuncts instantiated at
concrete keys. -/
theorem C4_witness :
    (∃ la ld : List Post,
        getPosts [⟨1, "b", "y"⟩, ⟨2, "a", "x"⟩] (some "title") (some "asc")
          = ⟨200, .posts la⟩ ∧
        getPosts [⟨1, "b", "y"⟩, ⟨2, "a", "x"⟩] (some "title") (some "desc")
          = ⟨200, .posts ld⟩ ∧
        ld = la.reverse) ∧
    (∃ la ld : List Post,
        getPosts [⟨1, "b", "y"⟩, ⟨2, "a", "x"⟩] (some "content") (some "asc")
          = ⟨200, .posts la⟩ ∧
        getPosts [⟨1, "b", "y"⟩, ⟨2, "a", "x"⟩] (some "content") (some "desc")
          = ⟨200, .posts ld⟩ ∧
        ld = la.reverse) ∧
    (∃ la ld : List Post,
        getPosts [⟨1, "b", "y"⟩, ⟨2, "a", "x"⟩] (some "title") (some "asc")
          = ⟨200, .posts la⟩ ∧
        getPosts [⟨1, "b", "y"⟩, ⟨2, "a", "x"⟩] (some "title") (some "desc")
          = ⟨200, .posts ld⟩ ∧
        la.filter (fun p => p.title == "a")
          = [(⟨1, "b", "y"⟩ : Post), ⟨2, "a", "x"⟩].filter (fun p => p.title == "a") ∧
        ld.filter (fun p => p.title == "a")
          = [(⟨1, "b", "y"⟩ : Post), ⟨2, "a", "x"⟩].filter (fun p => p.title == "a")) ∧
    (∃ la ld : List Post,
        getPosts [⟨1, "b", "y"⟩, ⟨2, "a", "x"⟩] (some "content") (some "asc")
          = ⟨200, .posts la⟩ ∧
        getPosts [⟨1, "b", "y"⟩, ⟨2, "a", "x"⟩] (some "content") (some "desc")
          = ⟨200, .posts ld⟩ ∧
        la.filter (fun p => p.content == "x")
          = [(⟨1, "b", "y"⟩ : Post), ⟨2, "a", "x"⟩].filter (fun p => p.content == "x") ∧
        ld.filter (fun p => p.content == "x")
          = [(⟨1, "b", "y"⟩ : Post), ⟨2, "a", "x"⟩].filter (fun p => p.content == "x")) :=
  ⟨(C4_amended [⟨1, "b", "y"⟩, ⟨2, "a", "x"⟩]).1 (by decide),
   (C4_amended [⟨1, "b", "y"⟩, ⟨2, "a", "x"⟩]).2.1 (by decide),
   (C4_amended [⟨1, "b", "y"⟩, ⟨2, "a", "x"⟩]).2.2.1 "a",
   (C4_amended [⟨1, "b", "y"⟩, ⟨2, "a", "x"⟩]).2.2.2 "x"⟩

/-! ### Claim C2 -/

/-- Spec-side search predicate, written from the spec's words: a post matches
when every supplied term is a case-insensitive substring of the corresponding
field (AND semantics); an absent term imposes no constraint. -/
def matchesSpec (titleArg contentArg : Option String) (p : Post) : Bool :=
  (match titleArg with
   | none => true
   | some s => pyIn (lowerStr s) (lowerStr p.title)) &&
  (match contentArg with
   | none => true
   | some s => pyIn (lowerStr s) (lowerStr p.content))

/-- C2 counterexample: the code truncates a search term at its first `'/'`.
The title term `"a/b"` is not a (case-insensitive) substring of `"axyz"`,
yet the post is returned, so the claimed iff fails. -/
theorem C2_counterexample :
    searchPosts [⟨1, "axyz", "c"⟩] (some "a/b") none
      = ⟨200, .posts [⟨1, "axyz", "c"⟩]⟩ ∧
    pyIn (lowerStr "a/b") (lowerStr "axyz") = false := by
  decide

/-- The per-field filter of `search_posts` agrees with the spec-side matching
whenever the (lower-cased) term needs no slash truncation. -/
theorem codeFilter_field_eq (t : Option String) (x : String) :
    (if lowerStr (t.getD "") = "" then true else pyIn (lowerStr (t.getD "")) (lowerStr x))
      = (match t with
         | none => true
         | some s => pyIn (lowerStr s) (lowerStr x)) := by
  cases t with
  | none => rfl
  | some s =>
    by_cases hs : lowerStr s = ""
    · show (if lowerStr s = "" then true else pyIn (lowerStr s) (lowerStr x))
        = pyIn (lowerStr s) (lowerStr x)
      rw [if_pos hs, hs, pyIn_empty]
    · show (if lowerStr s = "" then true else pyIn (lowerStr s) (lowerStr x))
        = pyIn (lowerStr s) (lowerStr x)
      rw [if_neg hs]

/-- C2 amended: restricted to search terms containing no `'/'` character the
claim holds: the result is exactly the storage-ordered sublist of posts whose
every supplied term is a case-insensitive substring of the respective field
(AND semantics); with no terms the filter accepts every post. -/
theorem C2_amended (posts : List Post) (t c : Option String)
    (ht : ∀ s, t = some s → s.data.contains '/' = false)
    (hc : ∀ s, c = some s → s.data.contains '/' = false) :
    searchPosts posts t c = ⟨200, .posts (posts.filter (matchesSpec t c))⟩ := by
  have ht' : (lowerStr (t.getD "")).data.contains '/' = false := by
    cases t with
    | none => rfl
    | some s => rw [Option.getD_some, lowerStr_contains]; exact ht s rfl
  have hc' : (lowerStr (c.getD "")).data.contains '/' = false := by
    cases c with
    | none => rfl
    | some s => rw [Option.getD_some, lowerStr_contains]; exact hc s rfl
  simp only [searchPosts, ht', hc', Bool.false_eq_true, if_false]
  refine congrArg (fun l => (⟨200, .posts l⟩ : Resp)) ?_
  refine List.filter_congr ?_
  intro p _
  rw [codeFilter_field_eq t p.title, codeFilter_field_eq c p.content]
  rfl

/-- C2 witness: the amended statement at concrete slash-free terms. -/
theorem C2_witness :
    searchPosts [⟨1, "Hello World", "First post"⟩, ⟨2, "Bye", "Second"⟩]
        (some "hello") (some "post")
      = ⟨200, .posts ([⟨1, "Hello World", "First post"⟩, ⟨2, "Bye", "Second"⟩].filter
          (matchesSpec (some "hello") (some "post")))⟩ :=
  C2_amended [⟨1, "Hello World", "First post"⟩, ⟨2, "Bye", "Second"⟩]
    (some "hello") (some "post")
    (by intro s hs; cases hs; decide) (by intro s hs; cases hs; decide)

/-! ### Claim C10 -/

/-- The query normalisation of `search_posts` only ever sees the part of the
term before its first `'/'`. -/
theorem norm_beforeSlash (q : String) :
    (if (lowerStr (beforeSlash q)).data.contains '/' then beforeSlash (lowerStr (beforeSlash q))
     else lowerStr (beforeSlash q))
      = (if (lowerStr q).data.contains '/' then beforeSlash (lowerStr q) else lowerStr q) := by
  rw [lowerStr_contains (beforeSlash q), beforeSlash_contains q]
  rw [if_neg (fun h => Bool.noConfusion h)]
  by_cases hq : q.data.contains '/' = true
  · rw [lowerStr_contains q, hq, if_pos rfl, beforeSlash_lowerStr]
  · have hqf : q.data.contains '/' = false := by
      revert hq; cases q.data.contains '/' <;> simp
    rw [lowerStr_contains q, hqf, if_neg (fun h => Bool.noConfusion h),
        beforeSlash_eq_self q hqf]

theorem searchPosts_title_slash (posts : List Post) (q : String) (c : Option String) :
    searchPosts posts (some q) c = searchPosts posts (some (beforeSlash q)) c := by
  simp only [searchPosts, Option.getD_some]
  rw [norm_beforeSlash q]

theorem searchPosts_content_slash (posts : List Post) (t : Option String) (q : String) :
    searchPosts posts t (some q) = searchPosts posts t (some (beforeSlash q)) := by
  simp only [searchPosts, Option.getD_some]
  rw [norm_beforeSlash q]

/-- C10: a search term containing `'/'` matches exactly like its part before
the first `'/'` — for the title term and for the content term alike; in
particular title term "abc/def" behaves as "abc". -/
theorem C10 :
    (∀ (posts : List Post) (q : String) (c : Option String),
        searchPosts posts (some q) c = searchPosts posts (some (beforeSlash q)) c) ∧
    (∀ (posts : List Post) (t : Option String) (q : String),
        searchPosts posts t (some q) = searchPosts posts t (some (beforeSlash q))) ∧
    (∀ posts : List Post,
        searchPosts posts (some "abc/def") none = searchPosts posts (some "abc") none) := by
  refine ⟨searchPosts_title_slash, searchPosts_content_slash, ?_⟩
  intro posts
  rw [searchPosts_title_slash posts "abc/def" none]
  rfl

/-! ### Claims C5, C6, C7 -/

/-- Reduction of a successful `add_post` call. -/
theorem addPost_success (posts : List Post) (t c : String) (ht : t ≠ "") (hcn : c ≠ "") :
    addPost (some ⟨some t, some c⟩) posts
      = ⟨⟨201, .post ⟨if posts.isEmpty then 1 else maxId posts + 1, t, c⟩⟩,
         [posts ++ [⟨if posts.isEmpty then 1 else maxId posts + 1, t, c⟩]]⟩ := by
  have hcond : (truthy (some t) && truthy (some c)) = true := by
    simp [truthy, ht, hcn]
  simp only [addPost, hcond, if_true, Option.getD_some]

/-- C5 counterexample: delete id 2 from `[1, 2]`, then create: the new post is
assigned id 2 again — the deleted id is reused. -/
theorem C5_counterexample :
    deletePost 2 [⟨1, "a", "b"⟩, ⟨2, "c", "d"⟩]
      = ⟨⟨200, .msg "Post with id 2 has been deleted successfully."⟩, [[⟨1, "a", "b"⟩]]⟩ ∧
    addPost (some ⟨some "t", some "c"⟩) [⟨1, "a", "b"⟩]
      = ⟨⟨201, .post ⟨2, "t", "c"⟩⟩, [[⟨1, "a", "b"⟩, ⟨2, "t", "c"⟩]]⟩ := by
  decide

/-- C5 amended: id assignment has no memory of deletions — create always
assigns (max remaining id) + 1.  Hence a deleted id is reassigned whenever it
exceeds every remaining id by exactly one: after such a delete, the very next
successful create reuses the deleted id. -/
theorem C5_amended (posts posts' : List Post) (i : Int) (t c : String) (r : Resp)
    (ht : t ≠ "") (hcn : c ≠ "")
    (hdel : deletePost i posts = ⟨r, [posts']⟩)
    (hup : ∀ p ∈ posts', p.id + 1 ≤ i) (hat : ∃ p ∈ posts', p.id + 1 = i) :
    addPost (some ⟨some t, some c⟩) posts'
      = ⟨⟨201, .post ⟨i, t, c⟩⟩, [posts' ++ [⟨i, t, c⟩]]⟩ := by
  obtain ⟨p0, hp0, hp0id⟩ := hat
  have hnonempty : posts' ≠ [] := fun h => by subst h; cases hp0
  have hid : (if posts'.isEmpty then (1 : Int) else maxId posts' + 1) = i := by
    have hne : posts'.isEmpty = false := by
      cases posts' with
      | nil => exact absurd rfl hnonempty
      | cons a l => rfl
    rw [hne, if_neg (fun hh => Bool.noConfusion hh)]
    obtain ⟨q, hq, hqid⟩ := maxId_attained posts' hnonempty
    have h1 := hup q hq
    have h2 := maxId_ge posts' p0 hp0
    omega
  rw [addPost_success posts' t c ht hcn, hid]

/-- C5 witness: the amended statement on the concrete history delete(2) on
`[1, 2]` followed by a create, which reassigns id 2. -/
theorem C5_witness :
    addPost (some ⟨some "t", some "c"⟩) [⟨1, "a", "b"⟩]
      = ⟨⟨201, .post ⟨2, "t", "c"⟩⟩, [[⟨1, "a", "b"⟩] ++ [⟨2, "t", "c"⟩]]⟩ :=
  C5_amended [⟨1, "a", "b"⟩, ⟨2, "c", "d"⟩] [⟨1, "a", "b"⟩] 2 "t" "c"
    ⟨200, .msg "Post with id 2 has been deleted successfully."⟩
    (by decide) (by decide) (by decide)
    (by decide) ⟨⟨1, "a", "b"⟩, by decide, by decide⟩

/-- C6: a successful create (non-empty title and content) assigns id
(max id) + 1 — bounded above by and attained at an existing id — or 1 on an
empty collection, appends the new post at the end, persists exactly that
collection, and answers 201 with the new post. -/
theorem C6 (posts : List Post) (t c : String) (ht : t ≠ "") (hcn : c ≠ "") :
    ∃ newPost : Post,
      addPost (some ⟨some t, some c⟩) posts
        = ⟨⟨201, .post newPost⟩, [posts ++ [newPost]]⟩ ∧
      newPost.title = t ∧ newPost.content = c ∧
      (posts = [] → newPost.id = 1) ∧
      (posts ≠ [] →
        (∀ p ∈ posts, p.id + 1 ≤ newPost.id) ∧ ∃ p ∈ posts, p.id + 1 = newPost.id) := by
  refine ⟨⟨if posts.isEmpty then 1 else maxId posts + 1, t, c⟩,
    addPost_success posts t c ht hcn, rfl, rfl, ?_, ?_⟩
  · intro h
    subst h
    rfl
  · intro h
    have hne : posts.isEmpty = false := by
      cases posts with
      | nil => exact absurd rfl h
      | cons a l => rfl
    have hid : (if posts.isEmpty then (1 : Int) else maxId posts + 1) = maxId posts + 1 := by
      rw [hne, if_neg (fun hh => Bool.noConfusion hh)]
    constructor
    · intro p hp
      show p.id + 1 ≤ (if posts.isEmpty then (1 : Int) else maxId posts + 1)
      rw [hid]
      have := maxId_ge posts p hp
      omega
    · obtain ⟨p, hp, hpid⟩ := maxId_attained posts h
      refine ⟨p, hp, ?_⟩
      show p.id + 1 = (if posts.isEmpty then (1 : Int) else maxId posts + 1)
      rw [hid, hpid]

/-- C6 witness: the statement at a concrete collection and fields. -/
theorem C6_witness :
    ∃ newPost : Post,
      addPost (some ⟨some "t1", some "c1"⟩) [⟨1, "a", "b"⟩]
        = ⟨⟨201, .post newPost⟩, [[⟨1, "a", "b"⟩] ++ [newPost]]⟩ ∧
      newPost.title = "t1" ∧ newPost.content = "c1" ∧
      (([⟨1, "a", "b"⟩] : List Post) = [] → newPost.id = 1) ∧
      (([⟨1, "a", "b"⟩] : List Post) ≠ [] →
        (∀ p ∈ [(⟨1, "a", "b"⟩ : Post)], p.id + 1 ≤ newPost.id) ∧
        ∃ p ∈ [(⟨1, "a", "b"⟩ : Post)], p.id + 1 = newPost.id) :=
  C6 [⟨1, "a", "b"⟩] "t1" "c1" (by decide) (by decide)

/-- C7: a create whose title or content is missing or empty (including a
missing body) answers 400 with the validation error and performs no write at
all — the stored collection is untouched. -/
theorem C7 (data : Option ReqData) (posts : List Post)
    (h : data = none ∨ ∃ d, data = some d ∧
      (d.title = none ∨ d.title = some "" ∨ d.content = none ∨ d.content = some "")) :
    (addPost data posts).resp = ⟨400, .err "Title and content are required."⟩ ∧
    (addPost data posts).writes = [] := by
  rcases h with rfl | ⟨d, rfl, hd⟩
  · exact ⟨rfl, rfl⟩
  · have hfalse : (truthy d.title && truthy d.content) = false := by
      rcases hd with h' | h' | h' | h' <;> rw [h'] <;> simp [truthy]
    simp [addPost, hfalse]

/-- C7 witness: the statement at a concrete empty-title request. -/
theorem C7_witness :
    (addPost (some ⟨some "", some "c"⟩) [⟨1, "a", "b"⟩]).resp
      = ⟨400, .err "Title and content are required."⟩ ∧
    (addPost (some ⟨some "", some "c"⟩) [⟨1, "a", "b"⟩]).writes = [] :=
  C7 (some ⟨some "", some "c"⟩) [⟨1, "a", "b"⟩]
    (.inr ⟨⟨some "", some "c"⟩, rfl, .inr (.inl rfl)⟩)

/-! ### Claims C8, C9 -/

/-- Whatever `update_post` persists carries exactly the ids of the loaded
collection: the found post keeps its id, every other post is untouched. -/
theorem updatePost_writes (i : Int) (data : Option ReqData) (posts : List Post) :
    ∀ l ∈ (updatePost i data posts).writes, ids l = ids posts := by
  intro l hl
  cases hidx : posts.findIdx? (fun p => p.id == i) with
  | none =>
    simp [updatePost, hidx] at hl
  | some j =>
    cases data with
    | none =>
      simp [updatePost, hidx] at hl
    | some d =>
      by_cases hok : (truthy d.title && truthy d.content) = true
      · simp only [updatePost, hidx, hok, if_true, List.mem_singleton] at hl
        rw [hl]
        exact ids_set posts j _ rfl
      · have hok' : (truthy d.title && truthy d.content) = false := by
          revert hok; cases (truthy d.title && truthy d.content) <;> simp
        simp [updatePost, hidx, hok'] at hl

/-- The id a successful create assigns is not held by any loaded post. -/
theorem newId_not_mem (posts : List Post) :
    (if posts.isEmpty then (1 : Int) else maxId posts + 1) ∉ ids posts := by
  cases posts with
  | nil => simp [ids]
  | cons q ps =>
    intro hmem
    rw [List.isEmpty_cons, if_neg (fun hh => Bool.noConfusion hh)] at hmem
    rcases List.mem_map.mp hmem with ⟨p, hp, hpid⟩
    have := maxId_ge (q :: ps) p hp
    omega

/-- C8: every operation preserves uniqueness of ids.  When the loaded ids are
pairwise distinct, so are the ids of any collection the operation persists;
update keeps the id sequence unchanged, and create only ever responds with a
post whose id no loaded post holds. -/
theorem C8 (posts : List Post) (hnd : (ids posts).Nodup) :
    (∀ data : Option ReqData, ∀ l ∈ (addPost data posts).writes, (ids l).Nodup) ∧
    (∀ (i : Int) (data : Option ReqData), ∀ l ∈ (updatePost i data posts).writes,
        (ids l).Nodup ∧ ids l = ids posts) ∧
    (∀ i : Int, ∀ l ∈ (deletePost i posts).writes, (ids l).Nodup) ∧
    (∀ (data : Option ReqData) (p : Post),
        (addPost data posts).resp.body = .post p → p.id ∉ ids posts) := by
  refine ⟨?_, ?_, ?_, ?_⟩
  · intro data l hl
    cases data with
    | none => simp [addPost] at hl
    | some d =>
      by_cases hok : (truthy d.title && truthy d.content) = true
      · simp only [addPost, hok, if_true, List.mem_singleton] at hl
        rw [hl]
        have hids : ids (posts ++ [⟨if posts.isEmpty then 1 else maxId posts + 1,
            d.title.getD "", d.content.getD ""⟩]) = ids posts
              ++ [if posts.isEmpty then 1 else maxId posts + 1] := by
          simp [ids]
        rw [hids]
        rw [show (ids posts ++ [if posts.isEmpty then (1 : Int) else maxId posts + 1])
            = ids posts ++ (if posts.isEmpty then (1 : Int) else maxId posts + 1) :: []
          from rfl]
        rw [List.nodup_middle, List.append_nil, List.nodup_cons]
        exact ⟨newId_not_mem posts, hnd⟩
      · have hok' : (truthy d.title && truthy d.content) = false := by
          revert hok; cases (truthy d.title && truthy d.content) <;> simp
        simp [addPost, hok'] at hl
  · intro i data l hl
    have h := updatePost_writes i data posts l hl
    exact ⟨h.symm ▸ hnd, h⟩
  · intro i l hl
    cases hf : posts.find? (fun p => p.id == i) with
    | none => simp [deletePost, hf] at hl
    | some q =>
      simp only [deletePost, hf, List.mem_singleton] at hl
      rw [hl]
      have hsub : (ids (posts.erase q)).Sublist (ids posts) := by
        show ((posts.erase q).map (fun p => p.id)).Sublist (posts.map (fun p => p.id))
        exact List.Sublist.map (fun p => p.id) (List.erase_sublist q posts)
      exact hnd.sublist hsub
  · intro data p hresp
    cases data with
    | none => simp [addPost] at hresp
    | some d =>
      by_cases hok : (truthy d.title && truthy d.content) = true
      · simp only [addPost, hok, if_true] at hresp
        have hp : p = ⟨if posts.isEmpty then 1 else maxId posts + 1,
            d.title.getD "", d.content.getD ""⟩ := by
          cases hresp
          rfl
        rw [hp]
        exact newId_not_mem posts
      · have hok' : (truthy d.title && truthy d.content) = false := by
          revert hok; cases (truthy d.title && truthy d.content) <;> simp
        simp [addPost, hok'] at hresp

/-- C8 witness: the statement on a concrete duplicate-free collection. -/
theorem C8_witness :
    (∀ data : Option ReqData, ∀ l ∈ (addPost data [⟨1, "a", "b"⟩]).writes, (ids l).Nodup) ∧
    (∀ (i : Int) (data : Option ReqData),
        ∀ l ∈ (updatePost i data [⟨1, "a", "b"⟩]).writes,
        (ids l).Nodup ∧ ids l = ids [⟨1, "a", "b"⟩]) ∧
    (∀ i : Int, ∀ l ∈ (deletePost i [⟨1, "a", "b"⟩]).writes, (ids l).Nodup) ∧
    (∀ (data : Option ReqData) (p : Post),
        (addPost data [⟨1, "a", "b"⟩]).resp.body = .post p → p.id ∉ ids [⟨1, "a", "b"⟩]) :=
  C8 [⟨1, "a", "b"⟩] (by decide)

/-- C9: deleting an existing id removes exactly that one post — the earlier
posts and the later posts are untouched and the length drops by one — answers
200 with the exact success message, and a second delete of the same id
answers 404 without writing. -/
theorem C9 (posts : List Post) (i : Int) (hnd : (ids posts).Nodup)
    (hmem : ∃ p ∈ posts, p.id = i) :
    ∃ (p : Post) (l1 l2 : List Post),
      posts = l1 ++ p :: l2 ∧ p.id = i ∧
      deletePost i posts
        = ⟨⟨200, .msg ("Post with id " ++ toString i ++ " has been deleted successfully.")⟩,
           [l1 ++ l2]⟩ ∧
      (l1 ++ l2).length + 1 = posts.length ∧
      deletePost i (l1 ++ l2) = ⟨⟨404, .err "Post not found"⟩, []⟩ := by
  have hfind : ∃ q, posts.find? (fun p => p.id == i) = some q := by
    obtain ⟨p, hp, hpid⟩ := hmem
    cases hf : posts.find? (fun p => p.id == i) with
    | some q => exact ⟨q, rfl⟩
    | none =>
      have := List.find?_eq_none.mp hf p hp
      simp [hpid] at this
  obtain ⟨q, hq⟩ := hfind
  obtain ⟨hqid, l1, l2, hsplit, hl1⟩ := List.find?_eq_some.mp hq
  have hqid' : q.id = i := by simpa using hqid
  have hq_notmem_l1 : q ∉ l1 := by
    intro hqmem
    have := hl1 q hqmem
    simp [hqid'] at this
  have herase : posts.erase q = l1 ++ l2 := by
    rw [hsplit, List.erase_append_right (q :: l2) hq_notmem_l1, List.erase_cons_head]
  refine ⟨q, l1, l2, hsplit, hqid', ?_, ?_, ?_⟩
  · simp only [deletePost, hq]
    rw [herase]
  · rw [hsplit]
    simp only [List.length_append, List.length_cons]
    omega
  · have hnone : (l1 ++ l2).find? (fun p => p.id == i) = none := by
      rw [List.find?_eq_none]
      intro x hx
      rcases List.mem_append.mp hx with hx1 | hx2
      · have hfalse := bnot_true_iff.mp (hl1 x hx1)
        simp only [hfalse]
        exact fun hh => Bool.noConfusion hh
      · have hx_id : x.id ≠ i := by
          intro he
          have hnd2 := hnd
          rw [hsplit] at hnd2
          have hids : ids (l1 ++ q :: l2) = ids l1 ++ q.id :: ids l2 := by
            simp [ids]
          rw [hids] at hnd2
          have hq_not := (List.nodup_cons.mp (List.nodup_middle.mp hnd2)).1
          apply hq_not
          apply List.mem_append.mpr
          right
          rw [hqid', ← he]
          exact List.mem_map.mpr ⟨x, hx2, rfl⟩
        simp [hx_id]
    simp only [deletePost, hnone]

/-- C9 witness: the statement on the concrete collection `[1, 2]` deleting
id 2. -/
theorem C9_witness :
    ∃ (p : Post) (l1 l2 : List Post),
      [(⟨1, "a", "b"⟩ : Post), ⟨2, "c", "d"⟩] = l1 ++ p :: l2 ∧ p.id = 2 ∧
      deletePost 2 [⟨1, "a", "b"⟩, ⟨2, "c", "d"⟩]
        = ⟨⟨200, .msg ("Post with id " ++ toString (2 : Int)
              ++ " has been deleted successfully.")⟩,
           [l1 ++ l2]⟩ ∧
      (l1 ++ l2).length + 1 = ([(⟨1, "a", "b"⟩ : Post), ⟨2, "c", "d"⟩]).length ∧
      deletePost 2 (l1 ++ l2) = ⟨⟨404, .err "Post not found"⟩, []⟩ :=
  C9 [⟨1, "a", "b"⟩, ⟨2, "c", "d"⟩] 2 (by decide) ⟨⟨2, "c", "d"⟩, by decide, rfl⟩
